import Mathlib

/-!
Verification of the AMC cluster model (`models` package, `cluster.go`).

The Go source is shallowly embedded: the Go `map[as.Host]*Node` of a cluster
becomes a `List NodeM` (iteration order made explicit), Go `float64` stat
values become `ℚ`, Go `error` return values become `Option String`, and
per-node network responses become explicit function parameters.  Pieces of
the repository that are not part of the given source (the `common` package,
`resolveHost`, the external `go-version` library) are modelled from the
specification and marked as such in their doc comments.
-/

/- ---------------------------------------------------------------------
   String utilities
   --------------------------------------------------------------------- -/

/-- Byte-wise strict ordering on character lists, used to model Go string
ordering for `common.SortStrings`. -/
def strLtChars : List Char → List Char → Bool
  | [], [] => false
  | [], _ :: _ => true
  | _ :: _, [] => false
  | a :: as, b :: bs =>
    if a.toNat < b.toNat then true
    else if b.toNat < a.toNat then false
    else strLtChars as bs

/-- Non-strict string ordering derived from `strLtChars`. -/
def strLeB (a b : String) : Bool := !(strLtChars b.data a.data)

/-- Insert a string into a sorted list of strings, keeping it sorted. -/
def insertSorted (s : String) : List String → List String
  | [] => [s]
  | x :: xs => if strLeB s x then s :: x :: xs else x :: insertSorted s xs

/-- Modelled from the spec: `common.SortStrings` (not part of the given
source) sorts a list of strings; modelled as insertion sort. -/
def SortStrings (l : List String) : List String := l.foldr insertSorted []

/- ---------------------------------------------------------------------
   Data model: nodes and their published per-namespace stats
   --------------------------------------------------------------------- -/

/-- The slice of a namespace's stats map that the claims need:
`available_pct` as parsed by `stats.TryFloat("available_pct", -1)` (`none`
when the stat is absent or unparsable). -/
structure NsRec where
  availablePct : Option ℚ
deriving DecidableEq, Repr

/-- Modelled from the spec: the per-`Node` state visible to the Cluster
methods under verification.  `Node` accessors (`Address`, `Status`, `Build`,
`NamespaceByName`) are not part of the given source; per spec §3 a node is
identified by its host:port address, has an on/off status (`status = true`
means on), reports a build version, and a namespace map. -/
structure NodeM where
  address : String
  status : Bool
  build : String
  namespaces : List (String × NsRec)
deriving DecidableEq, Repr

/-- `Node.NamespaceByName`: look up a namespace record by name. -/
def NodeM.namespaceByName (n : NodeM) (ns : String) : Option NsRec :=
  (n.namespaces.find? (fun p => p.1 = ns)).map Prod.snd

/-- `common.Stats.TryFloat` on the single stat we track: the parsed value
when present, otherwise the supplied default. -/
def tryFloat (v : Option ℚ) (d : ℚ) : ℚ := v.getD d

/- ---------------------------------------------------------------------
   C2: Cluster.shouldAutoRemove
   --------------------------------------------------------------------- -/

/-- `Cluster.shouldAutoRemove`.  `sinceLastPingNs` is `time.Since(c.lastPing)`
in nanoseconds; `inactiveDur` is `config.AMC.InactiveDurBeforeRemoval` in
seconds, scaled by `time.Second` (10^9 ns) exactly as in the source. -/
def shouldAutoRemove (permanent : Bool) (inactiveDur : Int) (sinceLastPingNs : Int) : Bool :=
  !permanent && decide (0 < inactiveDur) &&
    decide (inactiveDur * 1000000000 < sinceLastPingNs)

/-- C2: `shouldAutoRemove` returns true iff the cluster is not permanent, the
configured `InactiveDurBeforeRemoval` is strictly positive, and the time since
`last_ping` exceeds it; in particular a permanent cluster is never eligible. -/
theorem shouldAutoRemove_spec (permanent : Bool) (inactiveDur sinceLastPingNs : Int) :
    (shouldAutoRemove permanent inactiveDur sinceLastPingNs = true ↔
      permanent = false ∧ 0 < inactiveDur ∧
        inactiveDur * 1000000000 < sinceLastPingNs)
    ∧ shouldAutoRemove true inactiveDur sinceLastPingNs = false := by
  constructor
  · simp [shouldAutoRemove, and_assoc]
  · simp [shouldAutoRemove]

/- ---------------------------------------------------------------------
   C3: Cluster.NodeCompatibility
   --------------------------------------------------------------------- -/

/-- One step of building the `versionList` Go map (`versionList[build] =
append(versionList[build], addr)`), as an association list. -/
def addToVersionList (vl : List (String × List String)) (build addr : String) :
    List (String × List String) :=
  if vl.any (fun p => p.1 = build) then
    vl.map (fun p => if p.1 = build then (p.1, p.2 ++ [addr]) else p)
  else vl ++ [(build, [addr])]

/-- The `versionList` map built identically by `Cluster.NodeCompatibility`
and `Cluster.BuildDetails`: build string to the addresses of the nodes
running it. -/
def versionList (nodes : List NodeM) : List (String × List String) :=
  nodes.foldl (fun vl n => addToVersionList vl n.build n.address) []

/-- `Cluster.NodeCompatibility`. -/
def NodeCompatibility (nodes : List NodeM) : String :=
  if (versionList nodes).length ≤ 1 then "homogeneous" else "compatible"

theorem keys_addToVersionList (vl : List (String × List String)) (build addr : String) :
    (addToVersionList vl build addr).map Prod.fst =
      if build ∈ vl.map Prod.fst then vl.map Prod.fst else vl.map Prod.fst ++ [build] := by
  unfold addToVersionList
  by_cases h : build ∈ vl.map Prod.fst
  · have hany : vl.any (fun p => p.1 = build) = true := by
      rw [List.any_eq_true]
      obtain ⟨p, hp, hfst⟩ := List.mem_map.mp h
      exact ⟨p, hp, by simp [hfst]⟩
    simp only [hany, if_true, h, if_pos, List.map_map]
    apply List.map_congr_left
    intro p _
    by_cases hb : p.1 = build <;> simp [hb]
  · have hany : vl.any (fun p => p.1 = build) = false := by
      rw [List.any_eq_false]
      intro p hp
      simp only [decide_eq_true_eq]
      intro hfst
      exact h (List.mem_map.mpr ⟨p, hp, hfst⟩)
    simp [hany, h]

theorem versionList_keys_aux (nodes : List NodeM) :
    ∀ acc : List (String × List String), (acc.map Prod.fst).Nodup →
      ((nodes.foldl (fun vl n => addToVersionList vl n.build n.address) acc).map
          Prod.fst).Nodup ∧
      ∀ x, x ∈ (nodes.foldl (fun vl n => addToVersionList vl n.build n.address) acc).map
          Prod.fst ↔ x ∈ acc.map Prod.fst ∨ x ∈ nodes.map NodeM.build := by
  induction nodes with
  | nil => intro acc hacc; simpa using hacc
  | cons n ns ih =>
    intro acc hacc
    simp only [List.foldl_cons, List.map_cons]
    have hkeys := keys_addToVersionList acc n.build n.address
    by_cases h : n.build ∈ acc.map Prod.fst
    · rw [if_pos h] at hkeys
      have := ih (addToVersionList acc n.build n.address) (by rw [hkeys]; exact hacc)
      refine ⟨this.1, fun x => ?_⟩
      rw [(this.2 x), hkeys]
      constructor
      · rintro (hx | hx)
        · exact Or.inl hx
        · exact Or.inr (List.mem_cons_of_mem _ hx)
      · rintro (hx | hx)
        · exact Or.inl hx
        · rcases List.mem_cons.mp hx with rfl | hx'
          · exact Or.inl h
          · exact Or.inr hx'
    · rw [if_neg h] at hkeys
      have hnodup : ((addToVersionList acc n.build n.address).map Prod.fst).Nodup := by
        rw [hkeys]
        exact List.Nodup.append hacc (List.nodup_singleton _)
          (by intro x hx hx'; simp at hx'; exact h (hx' ▸ hx))
      have := ih (addToVersionList acc n.build n.address) hnodup
      refine ⟨this.1, fun x => ?_⟩
      rw [(this.2 x), hkeys]
      simp only [List.mem_append, List.mem_singleton, List.map_cons, List.mem_cons]
      tauto

/-- The number of entries of the `versionList` map is the number of distinct
builds reported by the nodes. -/
theorem versionList_length (nodes : List NodeM) :
    (versionList nodes).length = (nodes.map NodeM.build).toFinset.card := by
  unfold versionList
  have h := versionList_keys_aux nodes [] (by simp)
  have hlen :
      (nodes.foldl (fun vl n => addToVersionList vl n.build n.address) []).length =
      ((nodes.foldl (fun vl n => addToVersionList vl n.build n.address) []).map
        Prod.fst).length := by simp
  rw [hlen, ← List.toFinset_card_of_nodup h.1]
  congr 1
  ext x
  simp only [List.mem_toFinset]
  rw [h.2 x]
  simp

/-- C3: `NodeCompatibility` returns "homogeneous" iff the set of distinct
builds reported by the nodes has size at most 1 (including zero nodes), and
returns "compatible" otherwise. -/
theorem NodeCompatibility_spec (nodes : List NodeM) :
    (NodeCompatibility nodes = "homogeneous" ↔
      (nodes.map NodeM.build).toFinset.card ≤ 1)
    ∧ (NodeCompatibility nodes = "compatible" ↔
      ¬ (nodes.map NodeM.build).toFinset.card ≤ 1) := by
  unfold NodeCompatibility
  rw [versionList_length]
  by_cases h : (nodes.map NodeM.build).toFinset.card ≤ 1 <;>
    simp [h]

/- ---------------------------------------------------------------------
   C1: Cluster.NamespaceInfo least_available_pct record
   --------------------------------------------------------------------- -/

/-- The `least_available_pct` record stored in the aggregated namespace
stats; both fields are nullable exactly as the Go
`map[string]interface\x7b\x7d` with keys "node" and "value" is. -/
structure LeastPct where
  node : Option String
  value : Option ℚ
deriving DecidableEq, Repr

/-- One node's iteration of the `least_available_pct` logic of
`Cluster.NamespaceInfo`: `leastDiskPct` starts as the null record; only when
the node's `available_pct` is at least 0 is the previously stored record
consulted and the running minimum updated; the result is stored back
unconditionally. `cur = none` models the `least_available_pct` key being
absent from the aggregate so far. -/
def leastPctStep (cur : Option LeastPct) (addr : String) (availPct : ℚ) : LeastPct :=
  if 0 ≤ availPct then
    let base := cur.getD ⟨none, none⟩
    match base.value with
    | none => ⟨some addr, some availPct⟩
    | some v => if availPct < v then ⟨some addr, some availPct⟩ else base
  else ⟨none, none⟩

/-- Projection of `Cluster.NamespaceInfo` to the `least_available_pct` record
it computes for one requested namespace: the walk over `c.Nodes()`, skipping
nodes whose namespace map lacks the namespace (the `continue`), feeding each
remaining node's `stats.TryFloat("available_pct", -1)` to `leastPctStep`. -/
def namespaceInfoLeastPct (nodes : List NodeM) (ns : String) : Option LeastPct :=
  nodes.foldl
    (fun cur node =>
      match node.namespaceByName ns with
      | none => cur
      | some r => some (leastPctStep cur node.address (tryFloat r.availablePct (-1))))
    none

/-- The (address, available_pct-or-(-1)) entries contributed by the nodes
holding the namespace, in node order. -/
def nsEntries (nodes : List NodeM) (ns : String) : List (String × ℚ) :=
  nodes.filterMap
    (fun node => (node.namespaceByName ns).map
      (fun r => (node.address, tryFloat r.availablePct (-1))))

/-- The maximal trailing run of entries whose available_pct is at least 0. -/
def reportedSuffix (l : List (String × ℚ)) : List (String × ℚ) :=
  (l.reverse.takeWhile (fun e => decide (0 ≤ e.2))).reverse

/-- Keep the entry with the smaller value, preferring the earlier entry on
ties. -/
def pickMin (best p : String × ℚ) : String × ℚ := if p.2 < best.2 then p else best

/-- The record naming the first-encountered minimum of a list of entries;
the null record for an empty list. -/
def minFirst : List (String × ℚ) → LeastPct
  | [] => ⟨none, none⟩
  | e :: rest => ⟨some (rest.foldl pickMin e).1, some (rest.foldl pickMin e).2⟩

def c1nodeA : NodeM := ⟨"1.1.1.1:3000", true, "4.5.1", [("test", ⟨some 10⟩)]⟩

def c1nodeB : NodeM := ⟨"2.2.2.2:3000", true, "4.5.1", [("test", ⟨none⟩)]⟩

/-- C1 counterexample: node A reports `available_pct = 10` for namespace
"test"; node B holds the namespace but reports no `available_pct` (so
`TryFloat` yields -1).  The claim says B must not affect the record, which
should stay at node A with value 10; the code instead resets the record to
the null one. -/
theorem namespaceInfoLeastPct_countereg :
    namespaceInfoLeastPct [c1nodeA, c1nodeB] "test" = some ⟨none, none⟩ ∧
      namespaceInfoLeastPct [c1nodeA, c1nodeB] "test" ≠
        some ⟨some "1.1.1.1:3000", some 10⟩ := by
  constructor
  · decide
  · decide

theorem namespaceInfoLeastPct_eq_entriesFold (nodes : List NodeM) (ns : String) :
    namespaceInfoLeastPct nodes ns =
      (nsEntries nodes ns).foldl (fun cur e => some (leastPctStep cur e.1 e.2)) none := by
  unfold namespaceInfoLeastPct
  suffices h : ∀ acc : Option LeastPct,
      nodes.foldl
        (fun cur node =>
          match node.namespaceByName ns with
          | none => cur
          | some r => some (leastPctStep cur node.address (tryFloat r.availablePct (-1))))
        acc
      = (nsEntries nodes ns).foldl (fun cur e => some (leastPctStep cur e.1 e.2)) acc from
    h none
  induction nodes with
  | nil => intro acc; simp [nsEntries]
  | cons n rest ih =>
    intro acc
    simp only [List.foldl_cons, nsEntries, List.filterMap_cons]
    cases h : n.namespaceByName ns with
    | none => simpa [h, nsEntries] using ih _
    | some r => simpa [h, nsEntries] using ih _

theorem reportedSuffix_append (xs : List (String × ℚ)) (e : String × ℚ) :
    reportedSuffix (xs ++ [e]) =
      if 0 ≤ e.2 then reportedSuffix xs ++ [e] else [] := by
  unfold reportedSuffix
  rw [List.reverse_append]
  by_cases h : (0 : ℚ) ≤ e.2 <;>
    simp [List.takeWhile_cons, h]

theorem leastPctStep_neg (cur : Option LeastPct) (addr : String) (availPct : ℚ)
    (h : ¬ 0 ≤ availPct) : leastPctStep cur addr availPct = ⟨none, none⟩ := by
  simp [leastPctStep, h]

theorem leastPctStep_none (addr : String) (availPct : ℚ) (h : 0 ≤ availPct) :
    leastPctStep none addr availPct = ⟨some addr, some availPct⟩ := by
  simp [leastPctStep, h]

theorem leastPctStep_novalue (n : Option String) (addr : String) (availPct : ℚ)
    (h : 0 ≤ availPct) :
    leastPctStep (some ⟨n, none⟩) addr availPct = ⟨some addr, some availPct⟩ := by
  simp [leastPctStep, h]

theorem leastPctStep_someval (n : Option String) (v : ℚ) (addr : String) (availPct : ℚ)
    (h : 0 ≤ availPct) :
    leastPctStep (some ⟨n, some v⟩) addr availPct =
      if availPct < v then ⟨some addr, some availPct⟩ else ⟨n, some v⟩ := by
  by_cases hlt : availPct < v <;> simp [leastPctStep, h, hlt]

theorem foldl_pickMin_mem (e : String × ℚ) (rest : List (String × ℚ)) :
    rest.foldl pickMin e ∈ e :: rest := by
  induction rest generalizing e with
  | nil => simp
  | cons q qs ih =>
    simp only [List.foldl_cons]
    rcases List.mem_cons.mp (ih (pickMin e q)) with hh | hh
    · rw [hh]
      unfold pickMin
      split
      · exact List.mem_cons_of_mem _ (List.mem_cons_self _ _)
      · exact List.mem_cons_self _ _
    · exact List.mem_cons_of_mem _ (List.mem_cons_of_mem _ hh)

theorem foldl_pickMin_le (e : String × ℚ) (rest : List (String × ℚ)) :
    (rest.foldl pickMin e).2 ≤ e.2 ∧ ∀ p ∈ rest, (rest.foldl pickMin e).2 ≤ p.2 := by
  induction rest generalizing e with
  | nil => simp
  | cons q qs ih =>
    simp only [List.foldl_cons]
    have h := ih (pickMin e q)
    have hle : (pickMin e q).2 ≤ e.2 ∧ (pickMin e q).2 ≤ q.2 := by
      unfold pickMin
      split
      · exact ⟨le_of_lt (by assumption), le_refl _⟩
      · exact ⟨le_refl _, le_of_not_lt (by assumption)⟩
    refine ⟨le_trans h.1 hle.1, ?_⟩
    intro p hp
    rcases List.mem_cons.mp hp with rfl | hp'
    · exact le_trans h.1 hle.2
    · exact h.2 p hp'

theorem minFirst_append (f : String × ℚ) (rest : List (String × ℚ)) (e : String × ℚ) :
    minFirst ((f :: rest) ++ [e]) =
      if e.2 < (rest.foldl pickMin f).2 then ⟨some e.1, some e.2⟩
      else ⟨some (rest.foldl pickMin f).1, some (rest.foldl pickMin f).2⟩ := by
  simp only [List.cons_append, minFirst, List.foldl_append, List.foldl_cons, List.foldl_nil]
  by_cases h : e.2 < (rest.foldl pickMin f).2 <;> simp [pickMin, h]

theorem entriesFold_eq (l : List (String × ℚ)) :
    l.foldl (fun cur e => some (leastPctStep cur e.1 e.2)) none =
      if l = [] then none else some (minFirst (reportedSuffix l)) := by
  induction l using List.reverseRecOn with
  | nil => simp
  | append_singleton xs e ih =>
    rw [List.foldl_append, List.foldl_cons, List.foldl_nil, ih, reportedSuffix_append]
    by_cases he : (0 : ℚ) ≤ e.2
    · rw [if_pos he]
      by_cases hxs : xs = []
      · subst hxs
        rw [if_pos rfl, if_neg (by simp), leastPctStep_none e.1 e.2 he]
        simp [reportedSuffix, minFirst]
      · rw [if_neg hxs, if_neg (by simp)]
        cases hs : reportedSuffix xs with
        | nil =>
          show some (leastPctStep (some (⟨none, none⟩ : LeastPct)) e.1 e.2) =
            some (minFirst ([] ++ [e]))
          rw [leastPctStep_novalue none e.1 e.2 he]
          rfl
        | cons f rest =>
          rw [show minFirst (f :: rest) =
              ⟨some (rest.foldl pickMin f).1, some (rest.foldl pickMin f).2⟩ from rfl,
            leastPctStep_someval _ _ _ _ he, minFirst_append]
    · rw [if_neg he, if_neg (show ¬(xs ++ [e] = []) from by simp),
        leastPctStep_neg _ _ _ he]
      rfl

/-- C1 amended: the `least_available_pct` record is the first-encountered
minimum of `available_pct` over the maximal trailing run of
namespace-holding nodes that report `available_pct` at least 0; a
namespace-holding node with no non-negative `available_pct` resets the
record to the null one, so earlier nodes do not contribute; the key is
absent iff no node holds the namespace. -/
theorem namespaceInfoLeastPct_amended (nodes : List NodeM) (ns : String) :
    (namespaceInfoLeastPct nodes ns =
      if nsEntries nodes ns = [] then none
      else some (minFirst (reportedSuffix (nsEntries nodes ns))))
    ∧ ∀ a v, minFirst (reportedSuffix (nsEntries nodes ns)) = ⟨some a, some v⟩ →
        (a, v) ∈ reportedSuffix (nsEntries nodes ns) ∧
          ∀ p ∈ reportedSuffix (nsEntries nodes ns), v ≤ p.2 := by
  constructor
  · rw [namespaceInfoLeastPct_eq_entriesFold, entriesFold_eq]
  · intro a v hmin
    cases hs : reportedSuffix (nsEntries nodes ns) with
    | nil =>
      rw [hs] at hmin
      exact absurd hmin (by simp [minFirst])
    | cons f rest =>
      rw [hs] at hmin
      simp only [minFirst, LeastPct.mk.injEq, Option.some.injEq] at hmin
      have hb : rest.foldl pickMin f = (a, v) := by
        cases hbb : rest.foldl pickMin f with
        | mk x y =>
          rw [hbb] at hmin
          simp only at hmin
          simp [hmin.1, hmin.2]
      constructor
      · rw [← hb]
        exact foldl_pickMin_mem f rest
      · intro p hp
        have hle := foldl_pickMin_le f rest
        rcases List.mem_cons.mp hp with rfl | hp'
        · have := hle.1
          rw [hb] at this
          exact this
        · have := hle.2 p hp'
          rw [hb] at this
          exact this

def c1nodeC : NodeM := ⟨"3.3.3.3:3000", true, "4.5.1", [("test", ⟨some 5⟩)]⟩

theorem namespaceInfoLeastPct_amended_witness :
    (namespaceInfoLeastPct [c1nodeA, c1nodeC] "test" =
      if nsEntries [c1nodeA, c1nodeC] "test" = [] then none
      else some (minFirst (reportedSuffix (nsEntries [c1nodeA, c1nodeC] "test"))))
    ∧ (("3.3.3.3:3000", (5 : ℚ)) ∈ reportedSuffix (nsEntries [c1nodeA, c1nodeC] "test") ∧
        ∀ p ∈ reportedSuffix (nsEntries [c1nodeA, c1nodeC] "test"), (5 : ℚ) ≤ p.2) :=
  ⟨(namespaceInfoLeastPct_amended [c1nodeA, c1nodeC] "test").1,
   (namespaceInfoLeastPct_amended [c1nodeA, c1nodeC] "test").2 "3.3.3.3:3000" 5 (by decide)⟩

/- ---------------------------------------------------------------------
   C4: Cluster.Backup / Cluster.Restore while one is in progress
   --------------------------------------------------------------------- -/

/-- Backup/restore job status (`common.BackupStatus*`). -/
inductive BRStatus
  | inProgress
  | finished
  | failed
  | aborted
deriving DecidableEq, Repr

/-- Backup/restore job type (`common.BackupRestoreType*`). -/
inductive BRType
  | backup
  | restore
deriving DecidableEq, Repr

/-- Modelled from the spec: `common.BackupRestore`, the shared record built
by `common.NewBackupRestore` (not part of the given source); fields follow
the constructor's argument list in the source call sites. -/
structure BackupRestore where
  typ : BRType
  clusterId : String
  ns : String
  destinationAddress : String
  username : String
  password : String
  destinationPath : String
  sets : String
  metadataOnly : Bool
  terminateOnChange : Bool
  scanPriority : Int
  status : BRStatus
deriving DecidableEq, Repr

/-- `models.Backup`: the embedded shared record (its `cluster` back-pointer
is dropped). -/
structure Backup where
  backupRestore : BackupRestore
deriving DecidableEq, Repr

/-- `models.Restore`: the embedded shared record plus restore-only fields. -/
structure Restore where
  backupRestore : BackupRestore
  threads : Int
  missingRecordsOnly : Bool
  ignoreGenerationNum : Bool
deriving DecidableEq, Repr

/-- The slice of a Cluster's state that `Backup`/`Restore` touch. -/
structure ClusterBRState where
  activeBackup : Option Backup
  activeRestore : Option Restore
deriving DecidableEq, Repr

/-- The guard `c.activeBackup != nil && c.activeBackup.Status == InProgress`. -/
def backupInProgress : Option Backup → Bool
  | some b => b.backupRestore.status = BRStatus.inProgress
  | none => false

/-- The guard `c.activeRestore != nil && c.activeRestore.Status == InProgress`. -/
def restoreInProgress : Option Restore → Bool
  | some r => r.backupRestore.status = BRStatus.inProgress
  | none => false

/-- `Cluster.CurrentBackup`. -/
def ClusterBRState.CurrentBackup (st : ClusterBRState) : Option Backup :=
  st.activeBackup

/-- `Cluster.CurrentRestore`. -/
def ClusterBRState.CurrentRestore (st : ClusterBRState) : Option Restore :=
  st.activeRestore

/-- `Cluster.Backup`: reject when the active backup is in progress; otherwise
install the new in-progress record, save it (`saveErr` is `Save()`'s result;
on failure the handle is nulled and the error returned), then return the
handle together with `Execute()`'s result (`execErr`). -/
def ClusterBRState.Backup (st : ClusterBRState) (clusterId ns destinationAddress
    destinationPath username password sets : String)
    (metadataOnly terminateOnChange : Bool) (scanPriority : Int)
    (saveErr execErr : Option String) :
    (Option Backup × Option String) × ClusterBRState :=
  if backupInProgress st.activeBackup then
    ((none, some "Another backup operation already exists and is in progress."), st)
  else
    let nb := Backup.mk (BackupRestore.mk BRType.backup clusterId ns destinationAddress
      username password destinationPath sets metadataOnly terminateOnChange scanPriority
      BRStatus.inProgress)
    match saveErr with
    | some e => ((none, some e), { st with activeBackup := none })
    | none => ((some nb, execErr), { st with activeBackup := some nb })

/-- `Cluster.Restore`: same shape as `Cluster.Backup`; the shared record is
built with sets "", metadataOnly false, terminateOnChange false and scan
priority 2, exactly as the source's `NewBackupRestore` call. -/
def ClusterBRState.Restore (st : ClusterBRState) (clusterId ns destinationAddress
    destinationPath username password : String) (threads : Int)
    (missingRecordsOnly ignoreGenerationNum : Bool)
    (saveErr execErr : Option String) :
    (Option Restore × Option String) × ClusterBRState :=
  if restoreInProgress st.activeRestore then
    ((none, some "Another backup operation already exists and is in progress."), st)
  else
    let nr := Restore.mk (BackupRestore.mk BRType.restore clusterId ns destinationAddress
      username password destinationPath "" false false 2 BRStatus.inProgress)
      threads missingRecordsOnly ignoreGenerationNum
    match saveErr with
    | some e => ((none, some e), { st with activeRestore := none })
    | none => ((some nr, execErr), { st with activeRestore := some nr })

/-- C4: while the active Backup (resp. Restore) is in progress, `Backup`
(resp. `Restore`) returns an error, does not change the cluster state, and
`CurrentBackup` (resp. `CurrentRestore`) still returns the prior handle. -/
theorem backupRestoreInProgress_spec (st : ClusterBRState)
    (cid ns da dp u pw sets : String) (mo toc : Bool) (sp : Int)
    (threads : Int) (mro ign : Bool) (saveErr execErr : Option String) :
    (∀ b, st.activeBackup = some b → b.backupRestore.status = BRStatus.inProgress →
      st.Backup cid ns da dp u pw sets mo toc sp saveErr execErr =
        ((none, some "Another backup operation already exists and is in progress."), st) ∧
      (st.Backup cid ns da dp u pw sets mo toc sp saveErr execErr).2.CurrentBackup = some b)
    ∧ (∀ r, st.activeRestore = some r → r.backupRestore.status = BRStatus.inProgress →
      st.Restore cid ns da dp u pw threads mro ign saveErr execErr =
        ((none, some "Another backup operation already exists and is in progress."), st) ∧
      (st.Restore cid ns da dp u pw threads mro ign saveErr execErr).2.CurrentRestore =
        some r) := by
  constructor
  · intro b hb hs
    have hip : backupInProgress st.activeBackup = true := by
      rw [hb]; simp [backupInProgress, hs]
    constructor
    · rw [ClusterBRState.Backup, if_pos hip]
    · rw [ClusterBRState.Backup, if_pos hip]
      exact hb
  · intro r hr hs
    have hip : restoreInProgress st.activeRestore = true := by
      rw [hr]; simp [restoreInProgress, hs]
    constructor
    · rw [ClusterBRState.Restore, if_pos hip]
    · rw [ClusterBRState.Restore, if_pos hip]
      exact hr

def c4backup : Backup :=
  ⟨⟨BRType.backup, "cid", "test", "addr", "u", "p", "/tmp", "", false, false, 2,
    BRStatus.inProgress⟩⟩

def c4restore : Restore :=
  ⟨⟨BRType.restore, "cid", "test", "addr", "u", "p", "/tmp", "", false, false, 2,
    BRStatus.inProgress⟩, 4, false, false⟩

def c4state : ClusterBRState := ⟨some c4backup, some c4restore⟩

theorem backupRestoreInProgress_spec_witness :
    (c4state.Backup "cid" "test" "addr" "/tmp" "u" "p" "" false false 2 none none =
      ((none, some "Another backup operation already exists and is in progress."),
        c4state) ∧
      (c4state.Backup "cid" "test" "addr" "/tmp" "u" "p" "" false false 2
        none none).2.CurrentBackup = some c4backup)
    ∧ (c4state.Restore "cid" "test" "addr" "/tmp" "u" "p" 4 false false none none =
      ((none, some "Another backup operation already exists and is in progress."),
        c4state) ∧
      (c4state.Restore "cid" "test" "addr" "/tmp" "u" "p" 4 false false
        none none).2.CurrentRestore = some c4restore) :=
  ⟨(backupRestoreInProgress_spec c4state "cid" "test" "addr" "/tmp" "u" "p" "" false
      false 2 4 false false none none).1 c4backup rfl rfl,
   (backupRestoreInProgress_spec c4state "cid" "test" "addr" "/tmp" "u" "p" "" false
      false 2 4 false false none none).2 c4restore rfl rfl⟩

/- ---------------------------------------------------------------------
   C5: Cluster.RemoveNodeByAddress
   --------------------------------------------------------------------- -/

/-- `Cluster.FindNodeByAddress`: the first node of the walk over `c.Nodes()`
whose address matches. -/
def FindNodeByAddress (nodes : List NodeM) (address : String) : Option NodeM :=
  nodes.find? (fun n => n.address = address)

/-- `Cluster.RemoveNodeByAddress`: the returned error (`none` on success)
and the node map afterwards.  The rebuild loop keeps every entry other than
the found node (`node != oldNode`). -/
def RemoveNodeByAddress (nodes : List NodeM) (address : String) :
    Option String × List NodeM :=
  match FindNodeByAddress nodes address with
  | none => (some ("Node " ++ address ++ " not found."), nodes)
  | some node =>
    if node.status then
      (some ("Node " ++ address ++ " is active. Only inactive nodes can be removed."),
        nodes)
    else
      (none, nodes.filter (fun n => decide (¬ n = node)))

/-- C5: under the node-map invariant that addresses are unique,
`RemoveNodeByAddress` succeeds iff a node with that address exists and is
off; after success no node with that address remains while every other node
does; on failure the node map is unchanged. -/
theorem RemoveNodeByAddress_spec (nodes : List NodeM) (address : String)
    (h : (nodes.map NodeM.address).Nodup) :
    ((RemoveNodeByAddress nodes address).1 = none ↔
      ∃ n ∈ nodes, n.address = address ∧ n.status = false)
    ∧ ((RemoveNodeByAddress nodes address).1 = none →
      (∀ n ∈ (RemoveNodeByAddress nodes address).2, n.address ≠ address)
      ∧ ∀ n ∈ nodes, n.address ≠ address → n ∈ (RemoveNodeByAddress nodes address).2)
    ∧ ((RemoveNodeByAddress nodes address).1 ≠ none →
      (RemoveNodeByAddress nodes address).2 = nodes) := by
  have hinj := List.inj_on_of_nodup_map h
  cases hf : FindNodeByAddress nodes address with
  | none =>
    have hdef : RemoveNodeByAddress nodes address =
        (some ("Node " ++ address ++ " not found."), nodes) := by
      unfold RemoveNodeByAddress
      rw [hf]
    have hnone : ∀ n ∈ nodes, n.address ≠ address := by
      intro n hn
      unfold FindNodeByAddress at hf
      have := List.find?_eq_none.mp hf n hn
      simpa using this
    rw [hdef]
    refine ⟨?_, ?_, ?_⟩
    · constructor
      · intro hcontr; exact absurd hcontr (by simp)
      · rintro ⟨n, hn, hna, _⟩
        exact absurd hna (hnone n hn)
    · intro hcontr; exact absurd hcontr (by simp)
    · intro _; rfl
  | some node =>
    have hpred : node.address = address := by
      have := List.find?_some hf
      simpa using this
    have hmem : node ∈ nodes := List.mem_of_find?_eq_some hf
    by_cases hst : node.status
    · have hdef : RemoveNodeByAddress nodes address =
          (some ("Node " ++ address ++ " is active. Only inactive nodes can be removed."),
            nodes) := by
        unfold RemoveNodeByAddress
        rw [hf]
        simp only [hst, if_true]
      rw [hdef]
      refine ⟨?_, ?_, ?_⟩
      · constructor
        · intro hcontr; exact absurd hcontr (by simp)
        · rintro ⟨n, hn, hna, hoff⟩
          have : n = node := hinj hn hmem (by rw [hna, hpred])
          rw [this] at hoff
          rw [hst] at hoff
          exact absurd hoff (by simp)
      · intro hcontr; exact absurd hcontr (by simp)
      · intro _; rfl
    · have hdef : RemoveNodeByAddress nodes address =
          (none, nodes.filter (fun n => decide (¬ n = node))) := by
        unfold RemoveNodeByAddress
        rw [hf]
        simp [hst]
      rw [hdef]
      refine ⟨?_, ?_, ?_⟩
      · exact iff_of_true rfl ⟨node, hmem, hpred, by simpa using hst⟩
      · intro _
        constructor
        · intro n hn hna
          have hn' := List.mem_filter.mp hn
          have : n = node := hinj hn'.1 hmem (by rw [hna, hpred])
          have hne := hn'.2
          rw [this] at hne
          simp at hne
        · intro n hn hna
          refine List.mem_filter.mpr ⟨hn, ?_⟩
          simp only [decide_eq_true_eq]
          intro heq
          exact hna (by rw [heq, hpred])
      · intro hcontr; exact absurd rfl hcontr

def c5node : NodeM := ⟨"1.1.1.1:3000", false, "4.5.1", []⟩

def c5nodeOn : NodeM := ⟨"2.2.2.2:3000", true, "4.5.1", []⟩

theorem RemoveNodeByAddress_spec_witness :
    ((RemoveNodeByAddress [c5node, c5nodeOn] "1.1.1.1:3000").1 = none ↔
      ∃ n ∈ [c5node, c5nodeOn], n.address = "1.1.1.1:3000" ∧ n.status = false)
    ∧ ((RemoveNodeByAddress [c5node, c5nodeOn] "1.1.1.1:3000").1 = none →
      (∀ n ∈ (RemoveNodeByAddress [c5node, c5nodeOn] "1.1.1.1:3000").2,
        n.address ≠ "1.1.1.1:3000")
      ∧ ∀ n ∈ [c5node, c5nodeOn], n.address ≠ "1.1.1.1:3000" →
        n ∈ (RemoveNodeByAddress [c5node, c5nodeOn] "1.1.1.1:3000").2)
    ∧ ((RemoveNodeByAddress [c5node, c5nodeOn] "1.1.1.1:3000").1 ≠ none →
      (RemoveNodeByAddress [c5node, c5nodeOn] "1.1.1.1:3000").2 = [c5node, c5nodeOn]) :=
  RemoveNodeByAddress_spec [c5node, c5nodeOn] "1.1.1.1:3000" (by decide)

/- ---------------------------------------------------------------------
   C6: Cluster.AddNode and Cluster.NodeList
   --------------------------------------------------------------------- -/

/-- The `host:port` string `as.NewHost(address, port)` is keyed and later
reported under. -/
def addrString (host : String) (port : Nat) : String := host ++ ":" ++ toString port

/-- `Cluster.NodeList`: the sorted addresses of the cluster's nodes. -/
def NodeList (nodes : List NodeM) : List String := SortStrings (nodes.map NodeM.address)

/-- `Cluster.AddNode`, given the already-resolved address list (`resolveHost`
is not part of the given source; its DNS answer is passed in).  Mirrors the
source: an empty resolution list returns the resolve error - which is nil on
that path - with the map unchanged; if any resolved address and the port are
already keyed, return "Node already exists" unchanged; otherwise register a
fresh node (initially off, awaiting its first poll) keyed by the first
resolved address and the port. -/
def AddNode (nodes : List NodeM) (resolved : List String) (port : Nat) :
    Option String × List NodeM :=
  if resolved.isEmpty then (none, nodes)
  else if resolved.any (fun a => nodes.any (fun n => n.address = addrString a port)) then
    (some "Node already exists", nodes)
  else
    (none, nodes ++ [⟨addrString (resolved.headD "") port, false, "", []⟩])

theorem mem_insertSorted (s a : String) (l : List String) :
    a ∈ insertSorted s l ↔ a = s ∨ a ∈ l := by
  induction l with
  | nil => simp [insertSorted]
  | cons x xs ih =>
    simp only [insertSorted]
    split
    · simp [or_comm, or_assoc]
    · simp only [List.mem_cons, ih]
      tauto

theorem mem_SortStrings (l : List String) (a : String) :
    a ∈ SortStrings l ↔ a ∈ l := by
  induction l with
  | nil => simp [SortStrings]
  | cons x xs ih =>
    simp only [SortStrings, List.foldr_cons] at *
    rw [mem_insertSorted, ih, List.mem_cons]

/-- C6: provided the address resolves to at least one host, a successful
`AddNode` makes the first resolved host:port appear in `NodeList`, and a
second `AddNode` with the same resolved addresses returns "Node already
exists" without modifying the node map. -/
theorem AddNode_spec (nodes : List NodeM) (resolved : List String) (port : Nat)
    (hres : resolved ≠ []) :
    ((AddNode nodes resolved port).1 = none →
      addrString (resolved.headD "") port ∈ NodeList (AddNode nodes resolved port).2)
    ∧ ((AddNode nodes resolved port).1 = none →
      (AddNode (AddNode nodes resolved port).2 resolved port).1 =
        some "Node already exists"
      ∧ (AddNode (AddNode nodes resolved port).2 resolved port).2 =
        (AddNode nodes resolved port).2) := by
  have hne : resolved.isEmpty = false := by
    cases resolved with
    | nil => exact absurd rfl hres
    | cons x xs => rfl
  by_cases hex : resolved.any (fun a => nodes.any (fun n => n.address = addrString a port))
  · have hdef : AddNode nodes resolved port = (some "Node already exists", nodes) := by
      unfold AddNode
      rw [hne]
      simp only [Bool.false_eq_true, if_false, hex, if_true]
    rw [hdef]
    exact ⟨fun hc => absurd hc (by simp), fun hc => absurd hc (by simp)⟩
  · have hdef : AddNode nodes resolved port =
        (none, nodes ++ [⟨addrString (resolved.headD "") port, false, "", []⟩]) := by
      unfold AddNode
      rw [hne]
      simp only [Bool.false_eq_true, if_false]
      rw [if_neg (by simpa using hex)]
    rw [hdef]
    have hheadmem : resolved.headD "" ∈ resolved := by
      cases resolved with
      | nil => exact absurd rfl hres
      | cons x xs => exact List.mem_cons_self _ _
    constructor
    · intro _
      simp only [NodeList]
      rw [mem_SortStrings]
      refine List.mem_map.mpr ⟨⟨addrString (resolved.headD "") port, false, "", []⟩, ?_, rfl⟩
      exact List.mem_append.mpr (Or.inr (List.mem_cons_self _ _))
    · intro _
      have hex2 : (nodes ++ [(⟨addrString (resolved.headD "") port, false, "", []⟩ :
          NodeM)]).any (fun n => n.address = addrString (resolved.headD "") port) = true := by
        rw [List.any_eq_true]
        exact ⟨_, List.mem_append.mpr (Or.inr (List.mem_cons_self _ _)), by simp⟩
      have hany2 : resolved.any (fun a =>
          (nodes ++ [(⟨addrString (resolved.headD "") port, false, "", []⟩ : NodeM)]).any
            (fun n => n.address = addrString a port)) = true := by
        rw [List.any_eq_true]
        exact ⟨resolved.headD "", hheadmem, hex2⟩
      constructor
      · unfold AddNode
        rw [hne]
        simp only [Bool.false_eq_true, if_false, hany2, if_true]
      · unfold AddNode
        rw [hne]
        simp only [Bool.false_eq_true, if_false, hany2, if_true]

theorem AddNode_spec_witness :
    ((AddNode [] ["10.0.0.1"] 3000).1 = none →
      addrString (["10.0.0.1"].headD "") 3000 ∈ NodeList (AddNode [] ["10.0.0.1"] 3000).2)
    ∧ ((AddNode [] ["10.0.0.1"] 3000).1 = none →
      (AddNode (AddNode [] ["10.0.0.1"] 3000).2 ["10.0.0.1"] 3000).1 =
        some "Node already exists"
      ∧ (AddNode (AddNode [] ["10.0.0.1"] 3000).2 ["10.0.0.1"] 3000).2 =
        (AddNode [] ["10.0.0.1"] 3000).2) :=
  AddNode_spec [] ["10.0.0.1"] 3000 (by decide)

/- ---------------------------------------------------------------------
   C7: Cluster.RequestInfoAll
   --------------------------------------------------------------------- -/

/-- One node's `RequestInfo(1, cmd)` outcome: the response map and the
error. -/
structure InfoResult where
  res : List (String × String)
  err : Option String
deriving DecidableEq, Repr

/-- `r.Res[cmd]` with Go's zero-value semantics for a missing key. -/
def lookupD (m : List (String × String)) (k d : String) : String :=
  ((m.find? (fun p => p.1 = k)).map Prod.snd).getD d

/-- The value the channel-reading loop stores for one node: first "" is
stored, then the error message when the node failed, else the response at
`cmd` when `len(r.Res) > 0 && len(r.Res[cmd]) > 0`. -/
def infoEntryVal (r : InfoResult) (cmd : String) : String :=
  match r.err with
  | some e => e
  | none =>
    if 0 < r.res.length ∧ 0 < (lookupD r.res cmd "").length then lookupD r.res cmd ""
    else ""

/-- `Cluster.RequestInfoAll`: fan `cmd` out to every node (`f` gives each
node's `RequestInfo` result), build the per-node result map (keyed by the
node, as the Go map keyed by `*Node` is) and the error list in node order,
and return the ", "-joined error (nil when no node failed). -/
def RequestInfoAll (nodes : List NodeM) (f : NodeM → InfoResult) (cmd : String) :
    List (NodeM × String) × Option String :=
  let acc := (nodes.map (fun n => (n, f n))).foldl
    (fun acc r =>
      (acc.1 ++ [(r.1, infoEntryVal r.2 cmd)],
        match r.2.err with
        | some e => acc.2 ++ [e]
        | none => acc.2))
    ([], [])
  (acc.1, if 0 < acc.2.length then some (String.intercalate ", " acc.2) else none)

def c7node : NodeM := ⟨"1.1.1.1:3000", true, "4.5.1", []⟩

def c7fail : NodeM → InfoResult := fun _ => ⟨[], some "network timeout"⟩

/-- C7 counterexample: a node failing with error "network timeout" gets the
map value "network timeout", which is neither a response (this node has
none: its response map is empty) nor the empty string - refuting the claim
that every map value is the node's response or "". -/
theorem RequestInfoAll_countereg :
    (RequestInfoAll [c7node] c7fail "statistics").1 = [(c7node, "network timeout")]
    ∧ (c7fail c7node).res = [] ∧ "network timeout" ≠ "" := by
  refine ⟨rfl, rfl, by decide⟩

theorem requestInfoFold (f : NodeM → InfoResult) (cmd : String) (nodes : List NodeM) :
    ∀ acc : List (NodeM × String) × List String,
      (nodes.map (fun n => (n, f n))).foldl
        (fun acc r =>
          (acc.1 ++ [(r.1, infoEntryVal r.2 cmd)],
            match r.2.err with
            | some e => acc.2 ++ [e]
            | none => acc.2))
        acc
      = (acc.1 ++ nodes.map (fun n => (n, infoEntryVal (f n) cmd)),
          acc.2 ++ nodes.filterMap (fun n => (f n).err)) := by
  induction nodes with
  | nil => intro acc; simp
  | cons n ns ih =>
    intro acc
    simp only [List.map_cons, List.foldl_cons, List.filterMap_cons]
    cases he : (f n).err with
    | none =>
      simp only [he]
      rw [ih]
      simp
    | some e =>
      simp only [he]
      rw [ih]
      simp

/-- C7 amended: the result map has exactly one entry per node, in node
order, whose value is the node's error message when it failed, its response
at `cmd` when it succeeded with a nonempty response map and value, and ""
otherwise; the returned error is nil iff no node failed, and otherwise is
the ", "-joined list of the failing nodes' error messages. -/
theorem RequestInfoAll_spec (nodes : List NodeM) (f : NodeM → InfoResult) (cmd : String) :
    (RequestInfoAll nodes f cmd).1 = nodes.map (fun n => (n, infoEntryVal (f n) cmd))
    ∧ ((RequestInfoAll nodes f cmd).2 = none ↔ ∀ n ∈ nodes, (f n).err = none)
    ∧ (RequestInfoAll nodes f cmd).2 =
      (if nodes.filterMap (fun n => (f n).err) = [] then none
        else some (String.intercalate ", " (nodes.filterMap (fun n => (f n).err)))) := by
  have hdef := requestInfoFold f cmd nodes ([], [])
  refine ⟨?_, ?_, ?_⟩
  · show ((nodes.map (fun n => (n, f n))).foldl _ ([], [])).1 = _
    rw [hdef]
    simp
  · show (if 0 < ((nodes.map (fun n => (n, f n))).foldl _ ([], [])).2.length then _
      else none) = none ↔ _
    rw [hdef]
    simp only [List.nil_append]
    cases hfm : nodes.filterMap (fun n => (f n).err) with
    | nil =>
      rw [if_neg (by simp)]
      rw [List.filterMap_eq_nil_iff] at hfm
      exact iff_of_true rfl hfm
    | cons e es =>
      constructor
      · intro hc
        rw [if_pos (by simp)] at hc
        exact absurd hc (by simp)
      · intro hall
        have : nodes.filterMap (fun n => (f n).err) = [] := by
          rw [List.filterMap_eq_nil_iff]
          intro n hn
          exact hall n hn
        rw [this] at hfm
        exact absurd hfm (by simp)
  · show (if 0 < ((nodes.map (fun n => (n, f n))).foldl _ ([], [])).2.length then _
      else none) = _
    rw [hdef]
    simp only [List.nil_append]
    cases hfm : nodes.filterMap (fun n => (f n).err) with
    | nil => simp
    | cons e es => simp

/- ---------------------------------------------------------------------
   C8: Cluster.versionSupported / Cluster.BuildDetails
   --------------------------------------------------------------------- -/

/-- Modelled from the spec: numeric value of one dotted component (digit
characters base 10). -/
def parseNatChars (cs : List Char) : Nat :=
  cs.foldl (fun acc c => acc * 10 + (c.toNat - 48)) 0

/-- Modelled from the spec: split a version string's characters on dots. -/
def splitDot : List Char → List (List Char)
  | [] => [[]]
  | c :: cs =>
    if c = '.' then [] :: splitDot cs
    else
      match splitDot cs with
      | [] => [[c]]
      | g :: gs => (c :: g) :: gs

/-- Modelled from the spec: the numeric components of a dotted version. -/
def verComponents (s : String) : List Nat := (splitDot s.data).map parseNatChars

/-- Modelled from the spec: lexicographic comparison of component lists,
missing components reading as zero. -/
def cmpComponents : List Nat → List Nat → Ordering
  | [], bs => if bs.all (fun b => b = 0) then .eq else .lt
  | a :: as, [] => if a = 0 then cmpComponents as [] else .gt
  | a :: as, b :: bs =>
    if a < b then .lt else if b < a then .gt else cmpComponents as bs

/-- Modelled from the spec: `version.Compare(a, b, "<")` of the external
`go-version` library under the dotted-semver ordering the spec names. -/
def verLt (a b : String) : Bool :=
  cmpComponents (verComponents a) (verComponents b) = Ordering.lt

/-- The error text built by `Cluster.versionSupported` for an offending
build. -/
def notSupportedMsg (oldest : String) (nodeList : List String) (ver : String) : String :=
  "Database cluster is not supported. Latest supported version is: `v" ++ oldest ++
    "`. Nodes [" ++ String.intercalate ", " nodeList ++ "] are at `v" ++ ver ++ "`"

/-- `Cluster.versionSupported`: walk the `version_list` of `BuildDetails`
and return the error for the first build older than `oldest` (`none` when
every build is supported). -/
def versionSupported (nodes : List NodeM) (oldest : String) : Option String :=
  match (versionList nodes).find? (fun p => verLt p.1 oldest) with
  | some p => some (notSupportedMsg oldest p.2 p.1)
  | none => none

theorem any_key_iff (vl : List (String × List String)) (b : String) :
    vl.any (fun p => p.1 = b) = true ↔ b ∈ vl.map Prod.fst := by
  rw [List.any_eq_true]
  constructor
  · rintro ⟨p, hp, hb⟩
    exact List.mem_map.mpr ⟨p, hp, by simpa using hb⟩
  · intro h
    obtain ⟨p, hp, hfst⟩ := List.mem_map.mp h
    exact ⟨p, hp, by simp [hfst]⟩

theorem versionList_keys (nodes : List NodeM) (x : String) :
    x ∈ (versionList nodes).map Prod.fst ↔ x ∈ nodes.map NodeM.build := by
  have h := (versionList_keys_aux nodes [] (by simp)).2 x
  unfold versionList
  rw [h]
  simp

theorem versionList_entries (nodes : List NodeM) :
    ∀ p ∈ versionList nodes,
      p.2 = (nodes.filter (fun n => n.build = p.1)).map NodeM.address := by
  induction nodes using List.reverseRecOn with
  | nil => intro p hp; simp [versionList] at hp
  | append_singleton ns n ih =>
    intro p hp
    have hvl : versionList (ns ++ [n]) =
        addToVersionList (versionList ns) n.build n.address := by
      unfold versionList
      rw [List.foldl_append]
      rfl
    rw [hvl] at hp
    unfold addToVersionList at hp
    by_cases hany : (versionList ns).any (fun q => q.1 = n.build) = true
    · rw [if_pos hany] at hp
      obtain ⟨q, hq, himg⟩ := List.mem_map.mp hp
      rw [List.filter_append, List.map_append]
      by_cases hqb : q.1 = n.build
      · rw [if_pos hqb] at himg
        rw [← himg]
        have hfn : List.filter (fun m => m.build = q.1) [n] = [n] := by
          simp [hqb]
        rw [show ((q.1, q.2 ++ [n.address]) : String × List String).1 = q.1 from rfl] at hfn ⊢
        rw [hfn]
        simp only [List.map_cons, List.map_nil]
        rw [← ih q hq]
      · rw [if_neg hqb] at himg
        rw [← himg]
        have hfn : List.filter (fun m => m.build = q.1) [n] = [] := by
          simp only [List.filter_cons, List.filter_nil]
          rw [if_neg (by simp; intro hc; exact hqb hc.symm)]
        rw [hfn]
        simp only [List.map_nil, List.append_nil]
        exact ih q hq
    · rw [if_neg (by simpa using hany)] at hp
      rcases List.mem_append.mp hp with hq | hq
      · have hkey : p.1 ∈ (versionList ns).map Prod.fst :=
          List.mem_map.mpr ⟨p, hq, rfl⟩
        have hnb : n.build ∉ (versionList ns).map Prod.fst := by
          rw [← any_key_iff]
          simpa using hany
        have hne : ¬ (n.build = p.1) := fun he => hnb (he ▸ hkey)
        rw [List.filter_append, List.map_append]
        have hfn : List.filter (fun m => m.build = p.1) [n] = [] := by
          simp only [List.filter_cons, List.filter_nil]
          rw [if_neg (by simpa using hne)]
        rw [hfn]
        simp only [List.map_nil, List.append_nil]
        exact ih p hq
      · have hp2 : p = (n.build, [n.address]) := by simpa using hq
        have hnb : n.build ∉ ns.map NodeM.build := by
          rw [← versionList_keys, ← any_key_iff]
          simpa using hany
        have hfil : ns.filter (fun m => m.build = n.build) = [] := by
          rw [List.filter_eq_nil_iff]
          intro m hm
          simp only [decide_eq_true_eq]
          intro hmb
          exact hnb (List.mem_map.mpr ⟨m, hm, hmb⟩)
        rw [hp2]
        simp only [List.filter_append, List.map_append]
        rw [hfil]
        simp

/-- C8: `versionSupported(min)` returns nil iff every observed build is at
least `min` under the dotted-semver ordering; otherwise the error is the
message naming an offending build and exactly the addresses of the nodes
running it. -/
theorem versionSupported_spec (nodes : List NodeM) (oldest : String) :
    (versionSupported nodes oldest = none ↔
      ∀ n ∈ nodes, verLt n.build oldest = false)
    ∧ ∀ msg, versionSupported nodes oldest = some msg →
      ∃ ver, verLt ver oldest = true ∧ (∃ n ∈ nodes, n.build = ver) ∧
        msg = notSupportedMsg oldest
          ((nodes.filter (fun n => n.build = ver)).map NodeM.address) ver := by
  constructor
  · cases hfind : (versionList nodes).find? (fun p => verLt p.1 oldest) with
    | none =>
      have hdef : versionSupported nodes oldest = none := by
        unfold versionSupported
        rw [hfind]
      rw [hdef]
      have hall := List.find?_eq_none.mp hfind
      constructor
      · intro _ n hn
        have hkey : n.build ∈ (versionList nodes).map Prod.fst := by
          rw [versionList_keys]
          exact List.mem_map.mpr ⟨n, hn, rfl⟩
        obtain ⟨p, hp, hfst⟩ := List.mem_map.mp hkey
        have := hall p hp
        rw [hfst] at this
        simpa using this
      · intro _; rfl
    | some p =>
      have hdef : versionSupported nodes oldest = some (notSupportedMsg oldest p.2 p.1) := by
        unfold versionSupported
        rw [hfind]
      rw [hdef]
      constructor
      · intro hc; exact absurd hc (by simp)
      · intro hall
        have hmemvl : p ∈ versionList nodes := List.mem_of_find?_eq_some hfind
        have hkey : p.1 ∈ nodes.map NodeM.build := by
          rw [← versionList_keys]
          exact List.mem_map.mpr ⟨p, hmemvl, rfl⟩
        obtain ⟨n, hn, hb⟩ := List.mem_map.mp hkey
        have hlt : verLt p.1 oldest = true := by
          have := List.find?_some hfind
          simpa using this
        have := hall n hn
        rw [hb] at this
        rw [this] at hlt
        exact absurd hlt (by simp)
  · intro msg hmsg
    cases hfind : (versionList nodes).find? (fun p => verLt p.1 oldest) with
    | none =>
      have hdef : versionSupported nodes oldest = none := by
        unfold versionSupported
        rw [hfind]
      rw [hdef] at hmsg
      exact absurd hmsg (by simp)
    | some p =>
      have hdef : versionSupported nodes oldest = some (notSupportedMsg oldest p.2 p.1) := by
        unfold versionSupported
        rw [hfind]
      rw [hdef] at hmsg
      have hmemvl : p ∈ versionList nodes := List.mem_of_find?_eq_some hfind
      have hlt : verLt p.1 oldest = true := by
        have := List.find?_some hfind
        simpa using this
      have hkey : p.1 ∈ nodes.map NodeM.build := by
        rw [← versionList_keys]
        exact List.mem_map.mpr ⟨p, hmemvl, rfl⟩
      obtain ⟨n, hn, hb⟩ := List.mem_map.mp hkey
      refine ⟨p.1, hlt, ⟨n, hn, hb⟩, ?_⟩
      rw [← Option.some_inj.mp hmsg]
      rw [versionList_entries nodes p hmemvl]

def c8nodes : List NodeM :=
  [⟨"1.1.1.1:3000", true, "4.5.1", []⟩, ⟨"2.2.2.2:3000", true, "4.5.1", []⟩,
    ⟨"3.3.3.3:3000", true, "4.6.0", []⟩]

theorem versionSupported_spec_witness :
    ∃ ver, verLt ver "4.6.0" = true ∧ (∃ n ∈ c8nodes, n.build = ver) ∧
      notSupportedMsg "4.6.0" ["1.1.1.1:3000", "2.2.2.2:3000"] "4.5.1" =
        notSupportedMsg "4.6.0"
          ((c8nodes.filter (fun n => n.build = ver)).map NodeM.address) ver :=
  (versionSupported_spec c8nodes "4.6.0").2
    (notSupportedMsg "4.6.0" ["1.1.1.1:3000", "2.2.2.2:3000"] "4.5.1")
    (by rfl)

/- ---------------------------------------------------------------------
   C9 and C10: Cluster.SendEmailNotifications
   --------------------------------------------------------------------- -/

/-- `common.Alert`: the fields the mail path reads. -/
structure Alert where
  id : Int
  nodeAddress : String
  status : String
  desc : String
deriving DecidableEq, Repr

/-- Modelled from the spec: `common.AlertBucket` (not part of the given
source) - alerts carry monotonic ids; a last-drained cursor marks the
newest alert already drained. -/
structure AlertBucket where
  alerts : List Alert
  lastDrainedId : Int
deriving DecidableEq, Repr

/-- Modelled from the spec: `AlertBucket.DrainNewAlerts` returns every alert
with id greater than the last-drained cursor and advances the cursor past
them. -/
def DrainNewAlerts (b : AlertBucket) : List Alert × AlertBucket :=
  (b.alerts.filter (fun a => decide (b.lastDrainedId < a.id)),
    ⟨b.alerts, b.alerts.foldl (fun c a => max c a.id) b.lastDrainedId⟩)

/-- The cluster state read by `SendEmailNotifications`: its alert bucket and
the configured mailer host (`c.observer.Config().Mailer.Host`). -/
structure MailState where
  alerts : AlertBucket
  mailerHost : String
deriving DecidableEq, Repr

/-- The retry loop around `mailer.SendMail` for one alert: `fuel` attempts
remain (5 initially), `i` is the current attempt index; the loop stops after
the first success (`succeeds i` is attempt i's outcome); returns the number
of `SendMail` calls made. -/
def sendMailLoop (succeeds : Nat → Bool) : Nat → Nat → Nat
  | 0, _ => 0
  | fuel + 1, i => if succeeds i then 1 else 1 + sendMailLoop succeeds fuel (i + 1)

/-- The `for i := 0; i < 5; i++` delivery loop of the source. -/
def sendMailAttempts (succeeds : Nat → Bool) : Nat := sendMailLoop succeeds 5 0

/-- `Cluster.SendEmailNotifications`: drain the new alerts first, then stop
if the mailer host is unconfigured, else run the delivery loop for every
drained alert; returns the attempts made per drained alert and the state
afterwards. -/
def SendEmailNotifications (st : MailState) (succeeds : Alert → Nat → Bool) :
    List (Alert × Nat) × MailState :=
  let drained := DrainNewAlerts st.alerts
  if st.mailerHost.length = 0 then ([], ⟨drained.2, st.mailerHost⟩)
  else
    (drained.1.map (fun a => (a, sendMailAttempts (succeeds a))), ⟨drained.2, st.mailerHost⟩)

theorem sendMailLoop_le (succeeds : Nat → Bool) :
    ∀ fuel i, sendMailLoop succeeds fuel i ≤ fuel := by
  intro fuel
  induction fuel with
  | zero => intro i; simp [sendMailLoop]
  | succ f ih =>
    intro i
    simp only [sendMailLoop]
    split
    · omega
    · have := ih (i + 1)
      omega

theorem sendMailLoop_first_success (succeeds : Nat → Bool) :
    ∀ fuel i k, k < fuel → (∀ j, i ≤ j → j < i + k → succeeds j = false) →
      succeeds (i + k) = true → sendMailLoop succeeds fuel i = k + 1 := by
  intro fuel
  induction fuel with
  | zero => intro i k hk; omega
  | succ f ih =>
    intro i k hk hfails hsucc
    simp only [sendMailLoop]
    by_cases hi : succeeds i = true
    · rw [if_pos hi]
      by_cases hk0 : k = 0
      · rw [hk0]
      · have : succeeds i = false := hfails i (le_refl i) (by omega)
        rw [hi] at this
        exact absurd this (by simp)
    · rw [if_neg hi]
      have hk0 : k ≠ 0 := by
        intro hc
        rw [hc] at hsucc
        simp only [Nat.add_zero] at hsucc
        exact hi hsucc
      have hrec := ih (i + 1) (k - 1) (by omega)
        (by intro j hj1 hj2; exact hfails j (by omega) (by omega))
        (by
          have : i + 1 + (k - 1) = i + k := by omega
          rw [this]
          exact hsucc)
      rw [hrec]
      omega

/-- C9: the delivery loop calls `SendMail` at most 5 times per drained
alert; once attempt `k` (the first success) succeeds, exactly `k + 1`
attempts are made and none after it; when the mailer host is unconfigured
no delivery is attempted at all. -/
theorem SendEmailNotifications_spec (st : MailState) (succeeds : Alert → Nat → Bool) :
    (∀ p ∈ (SendEmailNotifications st succeeds).1, p.2 ≤ 5)
    ∧ (∀ a : Alert, ∀ k, k < 5 → (∀ j, j < k → succeeds a j = false) →
      succeeds a k = true → sendMailAttempts (succeeds a) = k + 1)
    ∧ (st.mailerHost = "" → (SendEmailNotifications st succeeds).1 = []) := by
  refine ⟨?_, ?_, ?_⟩
  · intro p hp
    unfold SendEmailNotifications at hp
    by_cases hhost : st.mailerHost.length = 0
    · rw [if_pos hhost] at hp
      simp at hp
    · rw [if_neg hhost] at hp
      obtain ⟨a, _, himg⟩ := List.mem_map.mp hp
      rw [← himg]
      exact sendMailLoop_le (succeeds a) 5 0
  · intro a k hk hfails hsucc
    unfold sendMailAttempts
    exact sendMailLoop_first_success (succeeds a) 5 0 k hk
      (by intro j hj1 hj2; exact hfails j (by omega)) (by simpa using hsucc)
  · intro hhost
    unfold SendEmailNotifications
    rw [if_pos (by rw [hhost]; rfl)]

theorem foldl_max_id_le (l : List Alert) :
    ∀ init : Int, init ≤ l.foldl (fun c a => max c a.id) init
      ∧ ∀ a ∈ l, a.id ≤ l.foldl (fun c a => max c a.id) init := by
  induction l with
  | nil => intro init; simp
  | cons x xs ih =>
    intro init
    simp only [List.foldl_cons]
    have h := ih (max init x.id)
    refine ⟨le_trans (le_max_left _ _) h.1, ?_⟩
    intro a ha
    rcases List.mem_cons.mp ha with rfl | ha'
    · exact le_trans (le_max_right _ _) h.1
    · exact h.2 a ha'

/-- C10: `SendEmailNotifications` drains the bucket before the mailer-host
check, so even with the host unconfigured the drain cursor is advanced past
the pending alerts and a later drain of the resulting bucket returns
nothing. -/
theorem SendEmailNotifications_drains (st : MailState) (succeeds : Alert → Nat → Bool) :
    (SendEmailNotifications st succeeds).2.alerts = (DrainNewAlerts st.alerts).2
    ∧ (st.mailerHost = "" →
      (DrainNewAlerts (SendEmailNotifications st succeeds).2.alerts).1 = []) := by
  have hbucket : (SendEmailNotifications st succeeds).2.alerts =
      (DrainNewAlerts st.alerts).2 := by
    unfold SendEmailNotifications
    by_cases hhost : st.mailerHost.length = 0
    · rw [if_pos hhost]
    · rw [if_neg hhost]
  refine ⟨hbucket, fun _ => ?_⟩
  rw [hbucket]
  unfold DrainNewAlerts
  simp only
  rw [List.filter_eq_nil_iff]
  intro a ha
  simp only [decide_eq_true_eq, not_lt]
  exact (foldl_max_id_le st.alerts.alerts st.alerts.lastDrainedId).2 a ha

def c9alert : Alert := ⟨1, "1.1.1.1:3000", "red", "node down"⟩

def c9state : MailState := ⟨⟨[c9alert], 0⟩, ""⟩

def c9succeeds : Alert → Nat → Bool := fun _ i => i = 1

theorem SendEmailNotifications_spec_witness :
    (∀ p ∈ (SendEmailNotifications c9state c9succeeds).1, p.2 ≤ 5)
    ∧ sendMailAttempts (c9succeeds c9alert) = 2
    ∧ (SendEmailNotifications c9state c9succeeds).1 = [] :=
  ⟨(SendEmailNotifications_spec c9state c9succeeds).1,
    (SendEmailNotifications_spec c9state c9succeeds).2.1 c9alert 1 (by decide)
      (by decide) (by decide),
    (SendEmailNotifications_spec c9state c9succeeds).2.2 rfl⟩

theorem SendEmailNotifications_drains_witness :
    (SendEmailNotifications c9state c9succeeds).2.alerts = (DrainNewAlerts c9state.alerts).2
    ∧ (DrainNewAlerts (SendEmailNotifications c9state c9succeeds).2.alerts).1 = [] :=
  ⟨(SendEmailNotifications_drains c9state c9succeeds).1,
    (SendEmailNotifications_drains c9state c9succeeds).2 rfl⟩
